import Mathlib

/-!
Verification of the covered-call overwrite notebook (`options_trading.ipynb`).

The notebook is a straight-line script.  The data model and the two pieces of
decision logic it contains — the expiration-window arithmetic and the
minimum-strike computation of cell-7, and the risk-ceiling read-modify-write
of cell-4 — are embedded below as pure Lean functions.  Components the
specification documents but the notebook never implements (the contract
filter `select` and the risk gate `authorize`) are modelled from the
specification text and marked as such in their doc comments.

Prices are modelled as exact rationals.  The notebook computes on binary
floating point; every statement proved about the rational model below is
either independent of the rounding representation (totality, signs, values
far from any rounding boundary) or explicitly about the rational model.
-/

namespace OptionsTrading

/-! ## Data model -/

inductive ContractType
  | call
  | put
deriving DecidableEq

structure OptionContract where
  symbol : String
  underlying_symbol : String
  contract_type : ContractType
  strike_price : ℚ
  expiration_date : ℤ
deriving DecidableEq

structure ExpirationWindow where
  min_date : ℤ
  max_date : ℤ
deriving DecidableEq

/-! ## Expiration window (cell-7) -/

/-- Cell-7: `min_expiration = today + timedelta(days=14)`.  Dates are day
numbers; `timedelta(days=n)` is addition of `n`. -/
def min_expiration (today : ℤ) : ℤ := today + 14

/-- Cell-7: `max_expiration = today + timedelta(days=90)`, computed from the
same `today` captured once at the top of the cell. -/
def max_expiration (today : ℤ) : ℤ := today + 90

/-- The window the notebook derives from one captured `today` value. -/
def compute_window (today : ℤ) : ExpirationWindow :=
  { min_date := min_expiration today, max_date := max_expiration today }

/-! ## Minimum strike (cell-7)

Cell-7 computes `min_strike = str(round(underlying_last_price * 1.02, 2))`.
The Python built-in `round` rounds to the nearest value, ties to even.  The
computation is embedded on exact rationals, carried out on numerator and
denominator so that it evaluates inside the kernel. -/

/-- Round the fraction `n / d` (for `d > 0`) to the nearest integer, ties to
even: the rounding mode of the Python built-in `round`. -/
def roundHalfEvenDiv (n d : ℤ) : ℤ :=
  let q := n / d
  let r := n % d
  if 2 * r < d then q
  else if d < 2 * r then q + 1
  else if q % 2 = 0 then q else q + 1

/-- Round a rational to the nearest integer, ties to even, written with the
floor function.  Reference form used to state that `roundHalfEvenDiv`
implements the textbook rounding rule. -/
def roundHalfEvenQ (x : ℚ) : ℤ :=
  if x - ⌊x⌋ < 1/2 then ⌊x⌋
  else if (1 : ℚ)/2 < x - ⌊x⌋ then ⌊x⌋ + 1
  else if ⌊x⌋ % 2 = 0 then ⌊x⌋ else ⌊x⌋ + 1

/-- Cell-7: the numeric value `round(underlying_last_price * 1.02, 2)` in
exact rational arithmetic.  `last_price * 1.02` has the value
`(102 * p.num) / (100 * p.den)`; rounding it to two decimal places rounds
the fraction `(102 * p.num) / p.den` to a whole number of cents and divides
by 100.  (`min_strike_value_eq_round` below proves this equal to the
floor-based formula.)  The function is total: the notebook performs no
validation of the price. -/
def min_strike_value (p : ℚ) : ℚ :=
  mkRat (roundHalfEvenDiv (102 * p.num) p.den) 100

/-! ## The string binding of cell-7 and Python comparison semantics -/

inductive PyVal
  | pynum (q : ℚ)
  | pystr (s : String)
deriving DecidableEq

/-- Decimal rendering of `cents / 100`, in the style Python prints a float
that is an exact multiple of `1/100` (no trailing zero in the hundredths
place, `.0` kept for whole numbers). -/
def floatStr (cents : ℤ) : String :=
  let sign := if cents < 0 then "-" else ""
  let m := cents.natAbs
  let ip := m / 100
  let fp := m % 100
  if fp = 0 then sign ++ toString ip ++ ".0"
  else if fp % 10 = 0 then sign ++ toString ip ++ "." ++ toString (fp / 10)
  else if fp < 10 then sign ++ toString ip ++ ".0" ++ toString fp
  else sign ++ toString ip ++ "." ++ toString fp

/-- Cell-7: `min_strike = str(round(underlying_last_price * 1.02, 2))` — the
notebook binds `min_strike` to the string rendering of the rounded number,
not to the number itself. -/
def min_strike (last_price : ℚ) : PyVal :=
  PyVal.pystr (floatStr (roundHalfEvenDiv (102 * last_price.num) last_price.den))

/-- Python 3 `>=` on two values: defined for number/number and for
string/string operands; a mixed comparison raises `TypeError`, modelled as
`none`. -/
def pyGE : PyVal → PyVal → Option Bool
  | PyVal.pynum a, PyVal.pynum b => some (decide (b ≤ a))
  | PyVal.pystr a, PyVal.pystr b => some (!(decide (a < b)))
  | _, _ => none

/-! ## Contract selection

The notebook never implements contract filtering: cell-7, the final executed
cell, stops after computing the window and the threshold.  `select` is
modelled from the specification. -/

/-- Modelled from the spec: the per-contract filtering predicate
`contract.contract_type == contract_type AND window.min_date <=
contract.expiration_date <= window.max_date AND contract.strike_price >=
min_strike`, all boundaries closed. -/
def eligibleB (ctype : ContractType) (w : ExpirationWindow) (min_strike_v : ℚ)
    (c : OptionContract) : Bool :=
  decide (c.contract_type = ctype)
    && decide (w.min_date ≤ c.expiration_date)
    && decide (c.expiration_date ≤ w.max_date)
    && decide (min_strike_v ≤ c.strike_price)

/-- Modelled from the spec: `select` keeps, in input order, exactly the
contracts satisfying the filtering predicate (a stable filter); empty input
or no matches yields the empty list, never an error. -/
def select (contracts : List OptionContract) (w : ExpirationWindow)
    (min_strike_v : ℚ) (ctype : ContractType) : List OptionContract :=
  match contracts with
  | [] => []
  | c :: rest =>
      if eligibleB ctype w min_strike_v c then
        c :: select rest w min_strike_v ctype
      else
        select rest w min_strike_v ctype

/-! ## Risk ceiling (cell-4) -/

inductive RiskViolation
  | ceiling_exceeded
  | account_misconfigured
deriving DecidableEq

/-- Modelled from the spec: the notebook has no authorization gate — cell-4
writes the new level unconditionally — so `authorize` follows section 4.2 of
the specification: fail with `ceiling_exceeded` when the desired level is
above the policy ceiling, fail with `account_misconfigured` when the current
configured level is absent, succeed otherwise. -/
def authorize (current_max_level : Option ℤ) (desired_level policy_ceiling : ℤ) :
    Except RiskViolation Unit :=
  if policy_ceiling < desired_level then Except.error RiskViolation.ceiling_exceeded
  else
    match current_max_level with
    | none => Except.error RiskViolation.account_misconfigured
    | some _ => Except.ok ()

/-- Cell-4: the notebook reads the account configuration (the recorded run
printed `Max Options Trading Level: None`), assigns
`acct_config.max_options_trading_level = 1` and writes the configuration
back.  The level written is the constant 1, whatever level was read. -/
def written_max_level (_read_level : Option ℤ) : ℤ := 1

/-! ## The sequence of brokerage calls the notebook performs -/

inductive ApiCall
  | getAccount
  | getAccountConfigurations
  | setAccountConfigurations
  | getAllAssets
  | getAsset
  | getAllPositions
  | getStockLatestTrade
  | getOptionContracts
  | orderConstructed
  | submitOrder
deriving DecidableEq

/-- The straight-line sequence of brokerage calls in cells 3 to 7, in
execution order.  Cell-7 is the final executed cell: no order request is
ever constructed and `submit_order` is never called. -/
def notebookTrace : List ApiCall :=
  [ApiCall.getAccount, ApiCall.getAccountConfigurations,
   ApiCall.setAccountConfigurations, ApiCall.getAccountConfigurations,
   ApiCall.getAllAssets, ApiCall.getAsset, ApiCall.getAllPositions,
   ApiCall.getStockLatestTrade]

/-! ## Concrete data for witnesses (the end-to-end scenario of section 8,
with `today = 0`, `last_price = 250`) -/

def demoWindow : ExpirationWindow := { min_date := 14, max_date := 90 }

def demoContracts : List OptionContract :=
  [{ symbol := "C256", underlying_symbol := "TSLA", contract_type := ContractType.call,
     strike_price := 256, expiration_date := 31 },
   { symbol := "C254", underlying_symbol := "TSLA", contract_type := ContractType.call,
     strike_price := 254, expiration_date := 31 },
   { symbol := "P260", underlying_symbol := "TSLA", contract_type := ContractType.put,
     strike_price := 260, expiration_date := 31 },
   { symbol := "C260", underlying_symbol := "TSLA", contract_type := ContractType.call,
     strike_price := 260, expiration_date := 121 }]

def demoNoMatch : List OptionContract :=
  [{ symbol := "P260", underlying_symbol := "TSLA", contract_type := ContractType.put,
     strike_price := 260, expiration_date := 31 }]

/-! ## Helper lemmas -/

theorem select_eq_filter (l : List OptionContract) (w : ExpirationWindow)
    (m : ℚ) (t : ContractType) :
    select l w m t = List.filter (fun c => eligibleB t w m c) l := by
  induction l with
  | nil => rfl
  | cons c rest ih =>
      cases h : eligibleB t w m c <;> simp [select, List.filter_cons, ih, h]

theorem eligibleB_eq_true_iff (t : ContractType) (w : ExpirationWindow)
    (m : ℚ) (c : OptionContract) :
    eligibleB t w m c = true ↔
      c.contract_type = t ∧ w.min_date ≤ c.expiration_date
        ∧ c.expiration_date ≤ w.max_date ∧ m ≤ c.strike_price := by
  simp [eligibleB, and_assoc]

/-- Core bound: when the fraction is non-positive, half-even rounding stays
non-positive.  Stated on an abstract quotient and remainder. -/
theorem rhe_branch_nonpos {d q r n : ℤ} (hd : 0 < d) (hn : n ≤ 0)
    (h1 : d * q + r = n) (h2 : 0 ≤ r) (h3 : r < d) :
    (if 2 * r < d then q else if d < 2 * r then q + 1
     else if q % 2 = 0 then q else q + 1) ≤ 0 := by
  have hq : q ≤ 0 := by
    by_contra hcon
    push_neg at hcon
    have hone : 1 ≤ q := by linarith [Int.add_one_le_iff.mpr hcon]
    have hdq : d * 1 ≤ d * q := mul_le_mul_of_nonneg_left hone (le_of_lt hd)
    linarith
  have hq1 : d ≤ 2 * r → q + 1 ≤ 0 := by
    intro hr
    by_contra hcon
    push_neg at hcon
    have h0 : 0 ≤ q := by linarith [Int.lt_iff_add_one_le.mp hcon]
    have hdq : 0 ≤ d * q := mul_nonneg (le_of_lt hd) h0
    linarith
  split_ifs with hA hB hC
  · exact hq
  · exact hq1 (le_of_lt hB)
  · exact hq
  · exact hq1 (not_lt.mp hA)

/-- Core bound: when the fraction is strictly above one half, half-even
rounding is at least 1.  Stated on an abstract quotient and remainder. -/
theorem rhe_branch_one_le {d q r n : ℤ} (hd : 0 < d) (h2n : d < 2 * n)
    (h1 : d * q + r = n) (_h2 : 0 ≤ r) (h3 : r < d) :
    1 ≤ (if 2 * r < d then q else if d < 2 * r then q + 1
         else if q % 2 = 0 then q else q + 1) := by
  have hq0 : 0 ≤ q := by
    by_contra hcon
    push_neg at hcon
    have hone : q ≤ -1 := by linarith [Int.add_one_le_iff.mpr hcon]
    have hdq : d * q ≤ d * (-1) := mul_le_mul_of_nonneg_left hone (le_of_lt hd)
    linarith
  split_ifs with hA hB hC
  · by_contra hcon
    push_neg at hcon
    have hq00 : q = 0 := le_antisymm (by linarith [Int.add_one_le_iff.mpr hcon]) hq0
    rw [hq00] at h1
    simp at h1
    linarith
  · linarith
  · by_contra hcon
    push_neg at hcon
    have hq00 : q = 0 := le_antisymm (by linarith [Int.add_one_le_iff.mpr hcon]) hq0
    rw [hq00] at h1
    simp at h1
    linarith [not_lt.mp hA, not_lt.mp hB]
  · linarith

theorem roundHalfEvenDiv_nonpos {n d : ℤ} (hn : n ≤ 0) (hd : 0 < d) :
    roundHalfEvenDiv n d ≤ 0 :=
  rhe_branch_nonpos hd hn (Int.ediv_add_emod n d)
    (Int.emod_nonneg n (ne_of_gt hd)) (Int.emod_lt_of_pos n hd)

theorem one_le_roundHalfEvenDiv {n d : ℤ} (hd : 0 < d) (h2n : d < 2 * n) :
    1 ≤ roundHalfEvenDiv n d :=
  rhe_branch_one_le hd h2n (Int.ediv_add_emod n d)
    (Int.emod_nonneg n (ne_of_gt hd)) (Int.emod_lt_of_pos n hd)

/-- `roundHalfEvenDiv` agrees with the floor-function formulation of
round-to-nearest, ties to even. -/
theorem roundHalfEvenQ_intCast_div (n : ℤ) (d : ℕ) (hd : 0 < d) :
    roundHalfEvenQ ((n : ℚ) / (d : ℚ)) = roundHalfEvenDiv n d := by
  have hdz : (0 : ℤ) < (d : ℤ) := by exact_mod_cast hd
  have hdq : (0 : ℚ) < (d : ℚ) := by exact_mod_cast hd
  have h1 : (d : ℤ) * (n / (d : ℤ)) + n % (d : ℤ) = n := Int.ediv_add_emod n d
  have h2 : 0 ≤ n % (d : ℤ) := Int.emod_nonneg n (ne_of_gt hdz)
  have h3 : n % (d : ℤ) < (d : ℤ) := Int.emod_lt_of_pos n hdz
  have hfloor : ⌊(n : ℚ) / (d : ℚ)⌋ = n / (d : ℤ) :=
    Rat.floor_intCast_div_natCast n d
  have hcast := congrArg (fun z : ℤ => (z : ℚ)) h1
  push_cast at hcast
  have hfract : (n : ℚ) / (d : ℚ) - (⌊(n : ℚ) / (d : ℚ)⌋ : ℚ)
      = ((n % (d : ℤ) : ℤ) : ℚ) / (d : ℚ) := by
    rw [hfloor]
    field_simp
    linarith [hcast]
  have key1 : (((n % (d : ℤ) : ℤ) : ℚ) / (d : ℚ) < 1/2)
      ↔ (2 * (n % (d : ℤ)) < (d : ℤ)) := by
    rw [div_lt_div_iff₀ hdq (by norm_num : (0 : ℚ) < 2)]
    constructor
    · intro hh
      exact_mod_cast (by push_cast; linarith :
        ((2 * (n % (d : ℤ)) : ℤ) : ℚ) < ((d : ℤ) : ℚ))
    · intro hh
      have hh2 : ((2 * (n % (d : ℤ)) : ℤ) : ℚ) < ((d : ℤ) : ℚ) := by
        exact_mod_cast hh
      push_cast at hh2
      linarith
  have key2 : ((1 : ℚ)/2 < ((n % (d : ℤ) : ℤ) : ℚ) / (d : ℚ))
      ↔ ((d : ℤ) < 2 * (n % (d : ℤ))) := by
    rw [div_lt_div_iff₀ (by norm_num : (0 : ℚ) < 2) hdq]
    constructor
    · intro hh
      exact_mod_cast (by push_cast; linarith :
        ((d : ℤ) : ℚ) < ((2 * (n % (d : ℤ)) : ℤ) : ℚ))
    · intro hh
      have hh2 : ((d : ℤ) : ℚ) < ((2 * (n % (d : ℤ)) : ℤ) : ℚ) := by
        exact_mod_cast hh
      push_cast at hh2
      linarith
  simp only [roundHalfEvenQ]
  rw [hfract, hfloor]
  simp only [key1, key2, roundHalfEvenDiv]

/-- The minimum-strike value is exactly `round(last_price * 1.02, 2)` in the
floor-function formulation: round `100 * (last_price * 1.02)` to the nearest
integer (ties to even) and divide by 100. -/
theorem min_strike_value_eq_round (p : ℚ) :
    min_strike_value p = (roundHalfEvenQ (100 * (p * (102/100))) : ℚ) / 100 := by
  have hx : (100 : ℚ) * (p * (102/100)) = ((102 * p.num : ℤ) : ℚ) / ((p.den : ℕ) : ℚ) := by
    conv_lhs => rw [← Rat.num_div_den p]
    push_cast
    have hdq : ((p.den : ℚ)) ≠ 0 := by
      have := Rat.den_pos p
      positivity
    field_simp
    ring
  rw [hx, roundHalfEvenQ_intCast_div _ _ (Rat.den_pos p)]
  simp only [min_strike_value]
  rw [Rat.mkRat_eq_div]
  push_cast
  ring

/-! ## Claim theorems -/

/-- C1: for every contract list, window and threshold, `select` returns
exactly the contracts whose type matches, whose expiration lies inside the
closed window, and whose strike is at least the threshold (all three
boundaries inclusive); it is a stable filter preserving the input order, and
empty input or no matches yields the empty list (the function is total, so
no error is possible). -/
theorem select_spec (l : List OptionContract) (w : ExpirationWindow)
    (m : ℚ) (t : ContractType) :
    select l w m t = List.filter (fun c => eligibleB t w m c) l
    ∧ (∀ c : OptionContract, c ∈ select l w m t ↔
        c ∈ l ∧ c.contract_type = t ∧ w.min_date ≤ c.expiration_date
          ∧ c.expiration_date ≤ w.max_date ∧ m ≤ c.strike_price)
    ∧ List.Sublist (select l w m t) l
    ∧ select ([] : List OptionContract) w m t = []
    ∧ ((∀ c ∈ l, eligibleB t w m c = false) → select l w m t = []) := by
  refine ⟨select_eq_filter l w m t, ?_, ?_, rfl, ?_⟩
  · intro c
    rw [select_eq_filter, List.mem_filter]
    exact and_congr_right fun _ => eligibleB_eq_true_iff t w m c
  · rw [select_eq_filter]
    exact List.filter_sublist l
  · intro h
    rw [select_eq_filter]
    exact List.filter_eq_nil_iff.mpr fun c hc => by simp [h c hc]

/-- Witness for C1 at the concrete scenario of section 8 of the
specification: a lone PUT contract matches nothing, and the four-contract
demonstration list filters to the stable subsequence. -/
theorem select_spec_witness :
    select demoNoMatch demoWindow 255 ContractType.call = []
    ∧ select demoContracts demoWindow 255 ContractType.call
        = List.filter (fun c => eligibleB ContractType.call demoWindow 255 c)
            demoContracts :=
  ⟨(select_spec demoNoMatch demoWindow 255 ContractType.call).2.2.2.2 (by decide),
   (select_spec demoContracts demoWindow 255 ContractType.call).1⟩

/-- C9: `select` is idempotent — applying it twice with the same window,
threshold and contract type gives the same list as applying it once. -/
theorem select_idempotent (l : List OptionContract) (w : ExpirationWindow)
    (m : ℚ) (t : ContractType) :
    select (select l w m t) w m t = select l w m t := by
  rw [select_eq_filter, select_eq_filter, List.filter_filter]
  simp

/-- C2: the computed window has `min_date` exactly 14 days and `max_date`
exactly 90 days after the single captured `today`. -/
theorem compute_window_spec (today : ℤ) :
    (compute_window today).min_date = today + 14
    ∧ (compute_window today).max_date = today + 90 :=
  ⟨rfl, rfl⟩

/-- C4: `authorize` fails with `ceiling_exceeded` whenever the desired level
is above the policy ceiling, fails with `account_misconfigured` whenever the
configured level is absent (checked after the ceiling), and succeeds
otherwise. -/
theorem authorize_spec (cur : Option ℤ) (d c : ℤ) :
    (c < d → authorize cur d c = Except.error RiskViolation.ceiling_exceeded)
    ∧ (d ≤ c → cur = none →
        authorize cur d c = Except.error RiskViolation.account_misconfigured)
    ∧ (d ≤ c → ∀ n : ℤ, cur = some n → authorize cur d c = Except.ok ()) := by
  refine ⟨fun h => ?_, fun h hn => ?_, fun h n hn => ?_⟩
  · simp [authorize, h]
  · simp [authorize, not_lt.mpr h, hn]
  · simp [authorize, not_lt.mpr h, hn]

/-- Witness for C4 at the test values of section 8: level 2 desired under
ceiling 1 is rejected, an absent configured level is rejected, level 1
desired under ceiling 1 with configured level 2 is permitted. -/
theorem authorize_spec_witness :
    authorize (some 2) 2 1 = Except.error RiskViolation.ceiling_exceeded
    ∧ authorize none 1 1 = Except.error RiskViolation.account_misconfigured
    ∧ authorize (some 2) 1 1 = Except.ok () :=
  ⟨(authorize_spec (some 2) 2 1).1 (by decide),
   (authorize_spec none 1 1).2.1 (by decide) rfl,
   (authorize_spec (some 2) 1 1).2.2 (by decide) 2 rfl⟩

/-- C5 counterexample: cell-4 writes the constant level 1, so when the level
read from the configuration is 0 the value written back is greater than the
value read — the claim that the write never raises the level fails. -/
theorem written_level_raises :
    written_max_level (some 0) = 1 ∧ ¬ written_max_level (some 0) ≤ 0 := by
  decide

/-- C5 amended: cell-4 always writes level 1, so the written level does not
exceed the read level provided the level read is at least 1; when the read
level is 0 or absent the write raises it. -/
theorem written_level_le (n : ℤ) (h : 1 ≤ n) : written_max_level (some n) ≤ n := h

/-- Witness for the amended C5 at a read level of 2. -/
theorem written_level_le_witness :
    (1 : ℤ) ≤ 2 ∧ written_max_level (some 2) ≤ 2 :=
  ⟨by decide, written_level_le 2 (by decide)⟩

/-- C6 counterexample: at the non-positive price `-10` the minimum-strike
computation of cell-7 does not fail — it returns the rounded value `-10.2`
(the notebook contains no `InvalidPriceError` and no validation of the
price). -/
theorem min_strike_no_error_cex :
    (-10 : ℚ) ≤ 0 ∧ min_strike_value (-10) = mkRat (-51) 5 := by
  decide

/-- C6 amended: the minimum-strike computation never raises — for every
`last_price ≤ 0` it returns the (non-positive) value
`round(last_price * 1.02, 2)` instead of an `InvalidPriceError`. -/
theorem min_strike_value_nonpos (p : ℚ) (h : p ≤ 0) : min_strike_value p ≤ 0 := by
  have hnum : p.num ≤ 0 := Rat.num_nonpos.mpr h
  have hd : (0 : ℤ) < (p.den : ℤ) := by exact_mod_cast Rat.den_pos p
  have hk : roundHalfEvenDiv (102 * p.num) p.den ≤ 0 :=
    roundHalfEvenDiv_nonpos (by linarith) hd
  have hkq : ((roundHalfEvenDiv (102 * p.num) p.den : ℤ) : ℚ) ≤ 0 := by
    exact_mod_cast hk
  simp only [min_strike_value]
  rw [Rat.mkRat_eq_div]
  exact div_nonpos_iff.mpr (Or.inr ⟨hkq, by norm_num⟩)

/-- Witness for the amended C6 at the concrete price `-3`. -/
theorem min_strike_value_nonpos_witness :
    (-3 : ℚ) ≤ 0 ∧ min_strike_value (-3) ≤ 0 :=
  ⟨by decide, min_strike_value_nonpos (-3) (by decide)⟩

/-- C7 counterexample: at the positive price `0.001` the computed minimum
strike is `round(0.00102, 2) = 0`, not strictly positive — the claimed
invariant `min_strike > 0` for every `last_price > 0` fails. -/
theorem min_strike_zero_cex :
    0 < mkRat 1 1000 ∧ min_strike_value (mkRat 1 1000) = 0 := by
  decide

/-- C7 amended: the computed minimum strike is strictly positive for every
`last_price` of at least `0.005` (half a cent); below that the rounded value
can collapse to 0. -/
theorem min_strike_value_pos (p : ℚ) (h : mkRat 1 200 ≤ p) :
    0 < min_strike_value p := by
  have hd : (0 : ℤ) < (p.den : ℤ) := by exact_mod_cast Rat.den_pos p
  have hdq : (0 : ℚ) < (p.den : ℚ) := by exact_mod_cast Rat.den_pos p
  have h1 : (1 : ℚ) / 200 ≤ p := by
    rw [Rat.mkRat_eq_div] at h
    push_cast at h
    exact h
  have h2 : (1 : ℚ) * (p.den : ℚ) ≤ (p.num : ℚ) * 200 := by
    rw [← Rat.num_div_den p] at h1
    exact (div_le_div_iff₀ (by norm_num) hdq).mp h1
  have hle : (p.den : ℤ) ≤ p.num * 200 := by
    exact_mod_cast (show ((p.den : ℚ)) ≤ (p.num : ℚ) * 200 by linarith)
  have hgt : (p.den : ℤ) < 2 * (102 * p.num) := by omega
  have hk : 1 ≤ roundHalfEvenDiv (102 * p.num) p.den :=
    one_le_roundHalfEvenDiv hd hgt
  have hkq : (0 : ℚ) < ((roundHalfEvenDiv (102 * p.num) p.den : ℤ) : ℚ) := by
    exact_mod_cast (show (0 : ℤ) < roundHalfEvenDiv (102 * p.num) p.den by linarith)
  simp only [min_strike_value]
  rw [Rat.mkRat_eq_div]
  exact div_pos hkq (by norm_num)

/-- Witness for the amended C7 at the concrete price 250 (the section 8
scenario, where the minimum strike is 255). -/
theorem min_strike_value_pos_witness :
    mkRat 1 200 ≤ (250 : ℚ) ∧ 0 < min_strike_value 250 :=
  ⟨by decide, min_strike_value_pos 250 (by decide)⟩

/-- C8: the notebook performs no order construction and no order submission
anywhere in its call sequence — cell-7 is the final executed cell — so in
particular no order is ever constructed or submitted before the eligibility
filter and the risk gate succeed, and a validation failure cannot be
followed by an order. -/
theorem no_order_ever :
    ApiCall.orderConstructed ∉ notebookTrace
    ∧ ApiCall.submitOrder ∉ notebookTrace := by
  decide

/-- C10: cell-7 binds `min_strike` to a string value (the rendering of the
rounded number), and the Python 3 numeric comparison
`strike_price >= min_strike` on such a mixed pair raises `TypeError`
(modelled as `none`) rather than returning a boolean. -/
theorem min_strike_is_string (p strike : ℚ) :
    (∃ s, min_strike p = PyVal.pystr s)
    ∧ pyGE (PyVal.pynum strike) (min_strike p) = none :=
  ⟨⟨_, rfl⟩, rfl⟩

end OptionsTrading
